import Mathlib

/-!
Verification of the batched embedding pipeline of `src/embeddings/main.py`
(code-warden embedding service).

The service wraps an external text encoder behind one HTTP endpoint.  The
custom logic verified here is: input validation (`validate_texts`), the
shared-secret header check (`verify_api_key`), and the `embed` request
handler, which partitions the input texts into contiguous batches of
`BATCH_SIZE`, invokes the encoder per batch, degrades to per-item encoding
when a batch raises a device out-of-memory signal, and reassembles one
ordered list of vectors.

The external encoder (tokenizer + model forward pass) is modelled as an
oracle: `batchEnc` for a whole-batch invocation and `singleEnc` for a
single-text invocation, each returning `ok`, `oom` (the
`torch.cuda.OutOfMemoryError` caught at line 186 of the source) or `err`
(any other exception, which the outer handler at lines 253-258 converts to
a generic 500).  The vector payload is an arbitrary type `V`, since the
pipeline only shuttles the tensors around.  The numeric content of the
encode step (`mean_pooling` and L2 normalization) is modelled separately
over `ℚ`/`ℝ` further below.
-/

namespace Embeddings

/-- HTTP error as raised by `HTTPException(status_code=..., detail=...)`. -/
structure HTTPError where
  status : Nat
  detail : String
deriving DecidableEq, Repr

/-- Environment-sourced configuration (lines 18-21 of the source).
`MAX_LENGTH` only parameterizes the tokenizer truncation inside the opaque
encoder, so it is absorbed into the encoder oracle. -/
structure Config where
  BATCH_SIZE : Nat
  MAX_TEXTS_PER_REQUEST : Nat
  MODEL_NAME : String

/-- An element of the incoming `texts` list: a Python string, or a value of
some other runtime type (line 104 checks `isinstance(text, str)`). -/
inductive PyText where
  | str (s : String)
  | other
deriving DecidableEq, Repr

/-- The underlying string of a texts element.  Elements that are not
strings never reach the encoder: validation rejects them first. -/
def getStr : PyText → String
  | .str s => s
  | .other => ""

/-- Python `text.strip()` (whitespace trimmed from both ends; modelled for
ASCII whitespace). -/
def pyStrip (s : String) : String :=
  ⟨((s.data.dropWhile Char.isWhitespace).reverse.dropWhile Char.isWhitespace).reverse⟩

/-- Inner loop of `validate_texts` (lines 103-113): walk the enumerated
texts and report the first offending element. -/
def validateLoop : Nat → List PyText → Option HTTPError
  | _, [] => none
  | i, t :: ts =>
    match t with
    | .other => some ⟨400, "Text at index " ++ toString i ++ " is not a string"⟩
    | .str s =>
      if (pyStrip s).length = 0 then
        some ⟨400, "Text at index " ++ toString i ++ " is empty or whitespace only"⟩
      else validateLoop (i + 1) ts

/-- `validate_texts` (lines 92-113): empty-list check, then size check,
then per-element checks; returns the first error raised, or `none`. -/
def validate_texts (cfg : Config) (texts : List PyText) : Option HTTPError :=
  if texts.isEmpty then some ⟨400, "texts list cannot be empty"⟩
  else if cfg.MAX_TEXTS_PER_REQUEST < texts.length then
    some ⟨400, "Too many texts. Maximum allowed: " ++ toString cfg.MAX_TEXTS_PER_REQUEST⟩
  else validateLoop 0 texts

/-- Python truthiness of `SHARED_SECRET` (line 71): the secret counts as
configured when the environment variable is set to a non-empty string. -/
def secretConfigured : Option String → Bool
  | none => false
  | some s => decide (s ≠ "")

/-- `verify_api_key` (lines 70-81): open mode when no secret is
configured; 401 when the `X-Api-Key` header is missing; 403 when the
header differs from the secret (exact string comparison at line 79). -/
def verify_api_key (SHARED_SECRET : Option String) (x_api_key : Option String) :
    Option HTTPError :=
  if secretConfigured SHARED_SECRET = false then none
  else
    match x_api_key with
    | none => some ⟨401, "X-Api-Key header is required"⟩
    | some k => if SHARED_SECRET = some k then none else some ⟨403, "Invalid API Key"⟩

/-- Whether a call to `verify_api_key` logs the open-endpoint warning
(line 72): exactly when no secret is configured. -/
def verify_api_key_warns (SHARED_SECRET : Option String) : Bool :=
  !secretConfigured SHARED_SECRET

/-- Outcome of one invocation of the external encoder: success, the
device out-of-memory signal (`torch.cuda.OutOfMemoryError`), or any
other exception. -/
inductive EncOutcome (α : Type) where
  | ok (val : α)
  | oom
  | err
deriving DecidableEq, Repr

/-- Request body of `POST /embed` (lines 116-118). -/
structure EmbedRequest where
  texts : List PyText
  task : String

/-- Response body of `POST /embed` (lines 120-123). -/
structure EmbedResponse (V : Type) where
  embeddings : List V
  count : Nat
  model : String
deriving DecidableEq, Repr

/-- Encoder readiness: the process-wide model/tokenizer globals are either
still unset (`loading`) or loaded by `lifespan` (`ready`). -/
inductive EncoderState where
  | loading
  | ready
deriving DecidableEq, Repr

/-- Prefixing of one text (lines 164 and 198): the f-string
computes `task ++ ": " ++ text` on the original, untrimmed string. -/
def prefixWith (task : String) (s : String) : String := task ++ ": " ++ s

variable {V : Type}

/-- Per-item fallback loop (lines 195-227): encode each text of the batch
singly, in order; on the first failure of any kind abort the whole request
with a 500 naming the absolute input position `i + j`. -/
def fallbackLoop (singleEnc : String → EncOutcome V) (task : String) (i : Nat) :
    Nat → List PyText → Except HTTPError (List V)
  | _, [] => .ok []
  | j, t :: ts =>
    match singleEnc (prefixWith task (getStr t)) with
    | .ok v =>
      match fallbackLoop singleEnc task i (j + 1) ts with
      | .ok rest => .ok (v :: rest)
      | .error e => .error e
    | _ => .error ⟨500, "Failed to process text at position " ++ toString (i + j)⟩

/-- Processing of one batch starting at absolute offset `i`
(lines 164-233): prefix every text, try the whole-batch encode; on `oom`
fall back to per-item processing of the same batch; any other encoder
exception propagates to the outer handler (lines 253-258) which turns it
into the generic 500. -/
def processBatch (batchEnc : List String → EncOutcome (List V))
    (singleEnc : String → EncOutcome V) (task : String) (i : Nat)
    (batch_texts : List PyText) : Except HTTPError (List V) :=
  let prefixed_texts := batch_texts.map (fun t => prefixWith task (getStr t))
  match batchEnc prefixed_texts with
  | .ok vs => .ok vs
  | .oom => fallbackLoop singleEnc task i 0 batch_texts
  | .err => .error ⟨500, "Internal server error during embedding generation"⟩

/-- The batch loop (line 159): process the batches in order, accumulating
each batch result, with the offset advancing by `BATCH_SIZE` per
iteration as `range(0, len(texts), BATCH_SIZE)` does. -/
def processBatches (bs : Nat) (batchEnc : List String → EncOutcome (List V))
    (singleEnc : String → EncOutcome V) (task : String) :
    Nat → List (List PyText) → Except HTTPError (List (List V))
  | _, [] => .ok []
  | i, b :: rest =>
    match processBatch batchEnc singleEnc task i b with
    | .error e => .error e
    | .ok vs =>
      match processBatches bs batchEnc singleEnc task (i + bs) rest with
      | .error e => .error e
      | .ok vss => .ok (vs :: vss)

/-- Contiguous slices `texts[i:i+bs]` for `i = 0, bs, 2*bs, ...`
(lines 159-160); every chunk but the last has exactly `bs` elements when
`1 ≤ bs`. -/
def chunkList (bs : Nat) : List α → List (List α)
  | [] => []
  | x :: xs => (x :: xs.take (bs - 1)) :: chunkList bs (xs.drop (bs - 1))
termination_by l => l.length
decreasing_by simp [List.length_drop]; omega

/-- The `POST /embed` handler body (lines 143-258): readiness check, input
validation, batch loop, concatenation, response assembly.  A zero
`BATCH_SIZE` makes `range(0, n, 0)` raise `ValueError`, which the outer
handler converts to the generic 500.  The final `torch.cat` flattens the
accumulated per-batch results in order, and `count` is set to the length
of the flattened list (line 246). -/
def embed (cfg : Config) (batchEnc : List String → EncOutcome (List V))
    (singleEnc : String → EncOutcome V) (st : EncoderState) (req : EmbedRequest) :
    Except HTTPError (EmbedResponse V) :=
  match st with
  | .loading => .error ⟨503, "Model is not loaded or is warming up"⟩
  | .ready =>
    match validate_texts cfg req.texts with
    | some e => .error e
    | none =>
      if cfg.BATCH_SIZE = 0 then
        .error ⟨500, "Internal server error during embedding generation"⟩
      else
        match processBatches cfg.BATCH_SIZE batchEnc singleEnc req.task 0
            (chunkList cfg.BATCH_SIZE req.texts) with
        | .error e => .error e
        | .ok all_embeddings =>
          let embeddings_list := all_embeddings.flatten
          .ok ⟨embeddings_list, embeddings_list.length, cfg.MODEL_NAME⟩

/-- The full request path of `POST /embed`: the framework runs the
`verify_api_key` dependency (line 142) before the endpoint body. -/
def handleEmbedRequest (cfg : Config) (SHARED_SECRET : Option String)
    (x_api_key : Option String) (batchEnc : List String → EncOutcome (List V))
    (singleEnc : String → EncOutcome V) (st : EncoderState) (req : EmbedRequest) :
    Except HTTPError (EmbedResponse V) :=
  match verify_api_key SHARED_SECRET x_api_key with
  | some e => .error e
  | none => embed cfg batchEnc singleEnc st req

/-- Request handling never writes the process-wide encoder globals: the
`embed` endpoint (lines 143-258) contains no assignment to `model`,
`tokenizer` or `device`, so the encoder state after a request is the state
before it. -/
def handleEmbedState (st : EncoderState) (_req : EmbedRequest) : EncoderState := st

/-- The startup transition performed by `lifespan` (lines 30-56): a
successful model load moves the process to `ready`; on failure the
exception is re-raised (line 53) and the process never serves. -/
def startupTransition (_st : EncoderState) : EncoderState := .ready

/-- Modelled from the spec words, for the refinement claim: "processing
one giant batch" — the whole prefixed list handed to the encoder in a
single invocation, one output per text (spec section 8). -/
def oneGiantBatch {V : Type} (enc : String → V) (task : String) (texts : List PyText) :
    List V :=
  (texts.map (fun t => prefixWith task (getStr t))).map enc

/-- A `d`-dimensional vector of exact rationals standing in for one row
of a float tensor. -/
def DVec (d : Nat) : Type := Fin d → ℚ

/-- Componentwise vector addition. -/
def vecAdd {d : Nat} (v w : DVec d) : DVec d := fun idx => v idx + w idx

/-- Scaling of one token embedding by its attention-mask weight: the
product `token_embeddings * input_mask_expanded` of line 88 restricted
to one token row. -/
def vecSmul {d : Nat} (c : ℚ) (v : DVec d) : DVec d := fun idx => c * v idx

/-- Sum of a list of vectors: `torch.sum(..., 1)` over the token axis. -/
def vecSum {d : Nat} (l : List (DVec d)) : DVec d := l.foldr vecAdd (fun _ => 0)

/-- `mean_pooling` (lines 84-90) for one item of the batch: the
mask-weighted sum of the token embeddings divided by the mask total
clamped from below by `1e-9`
(`torch.clamp(input_mask_expanded.sum(1), min=1e-9)`), so the division
is safe even for an all-zero attention mask. -/
def mean_pooling {d : Nat} (token_embeddings : List (DVec d))
    (attention_mask : List ℚ) : DVec d :=
  let weighted := (token_embeddings.zip attention_mask).map (fun p => vecSmul p.2 p.1)
  fun idx => vecSum weighted idx / max attention_mask.sum (1 / 1000000000)

/-- Squared L2 norm of a vector in exact arithmetic. -/
def normSq {d : Nat} (v : DVec d) : ℚ := ∑ idx : Fin d, v idx * v idx

/-! ## Validation lemmas -/

/-- An element of `texts` that `validate_texts` rejects: a non-string, or a
string that is empty after stripping whitespace (lines 103-113). -/
def offends : PyText → Bool
  | .str s => decide ((pyStrip s).length = 0)
  | .other => true

/-- The message `validate_texts` raises for an offending element at
index `i`. -/
def offendMsg (i : Nat) : PyText → String
  | .str _ => "Text at index " ++ toString i ++ " is empty or whitespace only"
  | .other => "Text at index " ++ toString i ++ " is not a string"

theorem validateLoop_eq_none (texts : List PyText) (c : Nat)
    (h : ∀ t ∈ texts, offends t = false) : validateLoop c texts = none := by
  induction texts generalizing c with
  | nil => rfl
  | cons t ts ih =>
    have ht := h t (List.mem_cons_self t ts)
    cases t with
    | other => simp [offends] at ht
    | str s =>
      simp only [offends, decide_eq_false_iff_not] at ht
      simp only [validateLoop, if_neg ht]
      exact ih (c + 1) fun u hu => h u (List.mem_cons_of_mem _ hu)

theorem validateLoop_first_offender (texts : List PyText) (c k : Nat)
    (hk : k < texts.length) (hoff : offends (texts.get ⟨k, hk⟩) = true)
    (hfirst : ∀ i (hi : i < k), offends (texts.get ⟨i, Nat.lt_trans hi hk⟩) = false) :
    validateLoop c texts = some ⟨400, offendMsg (c + k) (texts.get ⟨k, hk⟩)⟩ := by
  induction texts generalizing c k with
  | nil => exact absurd hk (Nat.not_lt_zero k)
  | cons t ts ih =>
    cases k with
    | zero =>
      simp only [List.get] at hoff ⊢
      cases t with
      | other => simp [validateLoop, offendMsg]
      | str s =>
        simp only [offends, decide_eq_true_eq] at hoff
        simp [validateLoop, if_pos hoff, offendMsg]
    | succ k =>
      have h0 : offends t = false := hfirst 0 (Nat.succ_pos k)
      cases t with
      | other => simp [offends] at h0
      | str s =>
        simp only [offends, decide_eq_false_iff_not] at h0
        simp only [List.get, validateLoop, if_neg h0]
        have := ih (c + 1) k (Nat.lt_of_succ_lt_succ hk)
          hoff (fun i hi => hfirst (i + 1) (Nat.succ_lt_succ hi))
        rw [this]
        have harith : c + 1 + k = c + (k + 1) := by omega
        rw [harith]

theorem validate_texts_eq_none (cfg : Config) (texts : List PyText)
    (hne : texts ≠ []) (hlen : texts.length ≤ cfg.MAX_TEXTS_PER_REQUEST)
    (h : ∀ t ∈ texts, offends t = false) : validate_texts cfg texts = none := by
  simp only [validate_texts, List.isEmpty_iff, if_neg hne, if_neg (Nat.not_lt.mpr hlen)]
  exact validateLoop_eq_none texts 0 h

theorem validate_texts_too_many (cfg : Config) (texts : List PyText)
    (hne : texts ≠ []) (hlen : cfg.MAX_TEXTS_PER_REQUEST < texts.length) :
    validate_texts cfg texts =
      some ⟨400, "Too many texts. Maximum allowed: " ++ toString cfg.MAX_TEXTS_PER_REQUEST⟩ := by
  simp [validate_texts, List.isEmpty_iff, hne, hlen]

/-! ## Claim C6 -/

/-- Claim C6 (amended): for every texts list whose length is within
`MAX_TEXTS_PER_REQUEST` and that contains an offending element (a
non-string, or empty/whitespace-only after trimming), with `k` the first
offending index, the request fails with status 400 and a message naming
index `k`, whatever the encoder oracles do (no encoder invocation). -/
theorem C6_invalid_element_names_first_index {V : Type} (cfg : Config)
    (batchEnc : List String → EncOutcome (List V)) (singleEnc : String → EncOutcome V)
    (task : String) (texts : List PyText) (k : Nat) (hk : k < texts.length)
    (hlen : texts.length ≤ cfg.MAX_TEXTS_PER_REQUEST)
    (hoff : offends (texts.get ⟨k, hk⟩) = true)
    (hfirst : ∀ i (hi : i < k), offends (texts.get ⟨i, Nat.lt_trans hi hk⟩) = false) :
    embed cfg batchEnc singleEnc EncoderState.ready ⟨texts, task⟩ =
      .error ⟨400, offendMsg k (texts.get ⟨k, hk⟩)⟩ := by
  have hne : texts ≠ [] := by
    intro h; rw [h] at hk; exact absurd hk (Nat.not_lt_zero k)
  have hv : validate_texts cfg texts =
      some ⟨400, offendMsg (0 + k) (texts.get ⟨k, hk⟩)⟩ := by
    simp only [validate_texts, List.isEmpty_iff, if_neg hne, if_neg (Nat.not_lt.mpr hlen)]
    exact validateLoop_first_offender texts 0 k hk hoff hfirst
  rw [Nat.zero_add] at hv
  simp [embed, hv]

/-- Witness for C6: a whitespace-only element at index 1 of a small valid-size
list is rejected with the message naming index 1, with encoders that
would fail if consulted. -/
theorem C6_invalid_element_names_first_index_witness :
    embed (V := List ℚ) ⟨4, 1000, "m"⟩ (fun _ => .err) (fun _ => .err)
        EncoderState.ready ⟨[.str "ok", .str "  ", .str "x"], "search_document"⟩ =
      .error ⟨400, offendMsg 1 (PyText.str "  ")⟩
    ∧ offendMsg 1 (PyText.str "  ") = "Text at index 1 is empty or whitespace only" := by
  have hk : 1 < ([PyText.str "ok", PyText.str "  ", PyText.str "x"] : List PyText).length := by
    decide
  have h := C6_invalid_element_names_first_index (V := List ℚ) ⟨4, 1000, "m"⟩
    (fun _ => .err) (fun _ => .err) "search_document"
    [.str "ok", .str "  ", .str "x"] 1 hk (by decide) rfl
    (fun i hi => by
      have hi0 : i = 0 := by omega
      subst hi0; rfl)
  exact ⟨h, by decide⟩

/-- Counterexample to C6 as stated: a list whose only offending element is
at index 0 but whose length exceeds the configured maximum fails with the
size message, which does not name the offending index. -/
theorem C6_counterexample :
    embed (V := List ℚ) ⟨4, 2, "m"⟩ (fun _ => .err) (fun _ => .err)
        EncoderState.ready ⟨[.str " ", .str "a", .str "b"], "t"⟩ =
      .error ⟨400, "Too many texts. Maximum allowed: 2"⟩
    ∧ offends (PyText.str " ") = true
    ∧ offends (PyText.str "a") = false ∧ offends (PyText.str "b") = false
    ∧ "Too many texts. Maximum allowed: 2" ≠ offendMsg 0 (PyText.str " ") := by
  refine ⟨rfl, by decide, by decide, by decide, by decide⟩

/-! ## Claim C7 -/

/-- Claim C7: an empty texts list fails with 400 and the empty-list
message; a list longer than `MAX_TEXTS_PER_REQUEST` fails with 400
reporting the configured maximum.  Both results are the same for every
encoder oracle, so no encoder invocation or partial work occurs. -/
theorem C7_empty_and_oversize_rejected {V : Type} (cfg : Config)
    (batchEnc : List String → EncOutcome (List V)) (singleEnc : String → EncOutcome V)
    (task : String) (texts : List PyText) :
    (texts = [] →
      embed cfg batchEnc singleEnc EncoderState.ready ⟨texts, task⟩ =
        .error ⟨400, "texts list cannot be empty"⟩)
    ∧ (texts ≠ [] → cfg.MAX_TEXTS_PER_REQUEST < texts.length →
      embed cfg batchEnc singleEnc EncoderState.ready ⟨texts, task⟩ =
        .error ⟨400, "Too many texts. Maximum allowed: " ++
          toString cfg.MAX_TEXTS_PER_REQUEST⟩) := by
  constructor
  · intro h; subst h; rfl
  · intro hne hlen
    simp [embed, validate_texts_too_many cfg texts hne hlen]

/-- Witness for C7 at concrete inputs: the empty list, and a 3-element
list against a maximum of 2. -/
theorem C7_empty_and_oversize_rejected_witness :
    embed (V := List ℚ) ⟨4, 2, "m"⟩ (fun _ => .err) (fun _ => .err)
        EncoderState.ready ⟨[], "t"⟩ = .error ⟨400, "texts list cannot be empty"⟩
    ∧ embed (V := List ℚ) ⟨4, 2, "m"⟩ (fun _ => .err) (fun _ => .err)
        EncoderState.ready ⟨[.str "a", .str "b", .str "c"], "t"⟩ =
      .error ⟨400, "Too many texts. Maximum allowed: 2"⟩ := by
  refine ⟨(C7_empty_and_oversize_rejected ⟨4, 2, "m"⟩ _ _ "t" []).1 rfl, ?_⟩
  have h := (C7_empty_and_oversize_rejected (V := List ℚ) ⟨4, 2, "m"⟩
    (fun _ => .err) (fun _ => .err) "t" [.str "a", .str "b", .str "c"]).2
    (by decide) (by decide)
  exact h

/-! ## Claim C8 -/

/-- Claim C8: with a configured (non-empty) shared secret, a request
without the `X-Api-Key` header fails with 401 and a request whose header
differs from the secret fails with 403, in both cases for every encoder
oracle and state (no encoder invocation); a request whose header equals
the secret exactly proceeds to the endpoint body.  With no secret
configured every request proceeds and the open-endpoint warning is
logged by the check. -/
theorem C8_shared_secret_check {V : Type} (cfg : Config)
    (batchEnc : List String → EncOutcome (List V)) (singleEnc : String → EncOutcome V)
    (st : EncoderState) (req : EmbedRequest) (s : String) (hs : s ≠ "") :
    (handleEmbedRequest cfg (some s) none batchEnc singleEnc st req =
      .error ⟨401, "X-Api-Key header is required"⟩)
    ∧ (∀ k, k ≠ s → handleEmbedRequest cfg (some s) (some k) batchEnc singleEnc st req =
      .error ⟨403, "Invalid API Key"⟩)
    ∧ (handleEmbedRequest cfg (some s) (some s) batchEnc singleEnc st req =
      embed cfg batchEnc singleEnc st req)
    ∧ (∀ secret x_api_key, secretConfigured secret = false →
      handleEmbedRequest cfg secret x_api_key batchEnc singleEnc st req =
        embed cfg batchEnc singleEnc st req
      ∧ verify_api_key_warns secret = true) := by
  have hcfg : secretConfigured (some s) = true := by
    simp [secretConfigured, hs]
  refine ⟨?_, ?_, ?_, ?_⟩
  · simp [handleEmbedRequest, verify_api_key, hcfg]
  · intro k hk
    have hne : ¬ ((some s : Option String) = some k) := by
      intro h
      exact hk (Option.some.inj h).symm
    simp [handleEmbedRequest, verify_api_key, hcfg, hne]
  · simp [handleEmbedRequest, verify_api_key, hcfg]
  · intro secret x_api_key hopen
    constructor
    · simp [handleEmbedRequest, verify_api_key, hopen]
    · simp [verify_api_key_warns, hopen]

/-- Witness for C8 with the secret "s3cret": missing header gives 401, a
wrong header gives 403, the exact header reaches the endpoint body, and
the unconfigured service is open and warns. -/
theorem C8_shared_secret_check_witness :
    (handleEmbedRequest (V := List ℚ) ⟨4, 1000, "m"⟩ (some "s3cret") none
      (fun _ => .err) (fun _ => .err) EncoderState.ready ⟨[.str "a"], "t"⟩ =
        .error ⟨401, "X-Api-Key header is required"⟩)
    ∧ (handleEmbedRequest (V := List ℚ) ⟨4, 1000, "m"⟩ (some "s3cret") (some "wrong")
      (fun _ => .err) (fun _ => .err) EncoderState.ready ⟨[.str "a"], "t"⟩ =
        .error ⟨403, "Invalid API Key"⟩)
    ∧ (handleEmbedRequest (V := List ℚ) ⟨4, 1000, "m"⟩ (some "s3cret") (some "s3cret")
      (fun _ => .err) (fun _ => .err) EncoderState.ready ⟨[.str "a"], "t"⟩ =
        embed ⟨4, 1000, "m"⟩ (fun _ => .err) (fun _ => .err) EncoderState.ready ⟨[.str "a"], "t"⟩)
    ∧ verify_api_key_warns none = true := by
  have h := C8_shared_secret_check (V := List ℚ) ⟨4, 1000, "m"⟩
    (fun _ => .err) (fun _ => .err) EncoderState.ready ⟨[.str "a"], "t"⟩
    "s3cret" (by decide)
  exact ⟨h.1, h.2.1 "wrong" (by decide), h.2.2.1,
    ((h.2.2.2 none none (by decide)).2)⟩

/-! ## Claim C9 -/

/-- Claim C9: while the encoder is not ready, `POST /embed` fails with
the 503 not-loaded response, for every request (even one that would fail
validation — the readiness check at line 148 precedes `validate_texts`)
and every encoder oracle (no encoder invocation); the startup transition
moves `loading` to `ready`; and request handling never changes the
encoder state, so once `ready` the process never reverts within its
lifetime. -/
theorem C9_not_ready_503 {V : Type} (cfg : Config)
    (batchEnc : List String → EncOutcome (List V)) (singleEnc : String → EncOutcome V)
    (req : EmbedRequest) :
    embed cfg batchEnc singleEnc EncoderState.loading req =
      .error ⟨503, "Model is not loaded or is warming up"⟩
    ∧ startupTransition EncoderState.loading = EncoderState.ready
    ∧ (∀ (reqs : List EmbedRequest),
        List.foldl handleEmbedState EncoderState.ready reqs = EncoderState.ready) := by
  refine ⟨rfl, rfl, ?_⟩
  intro reqs
  induction reqs with
  | nil => rfl
  | cons r rs ih => exact ih

/-! ## Batching lemmas -/

theorem chunkList_flatten {α : Type} (bs : Nat) (xs : List α) :
    (chunkList bs xs).flatten = xs := by
  induction xs using chunkList.induct bs with
  | case1 => simp [chunkList]
  | case2 x xs ih =>
    simp only [chunkList, List.flatten_cons, ih]
    simp

theorem chunkList_getElem {α : Type} (bs : Nat) (hbs : 1 ≤ bs) (xs : List α) (k : Nat)
    (hk : k < (chunkList bs xs).length) :
    (chunkList bs xs)[k] = (xs.drop (bs * k)).take bs := by
  induction xs using chunkList.induct bs generalizing k with
  | case1 => simp [chunkList] at hk
  | case2 x xs ih =>
    cases k with
    | zero =>
      simp only [chunkList, List.getElem_cons_zero, Nat.mul_zero, List.drop_zero]
      obtain ⟨b, rfl⟩ : ∃ b, bs = b + 1 := ⟨bs - 1, by omega⟩
      simp
    | succ k =>
      simp only [chunkList, List.length_cons] at hk
      simp only [chunkList, List.getElem_cons_succ]
      rw [ih k (by omega)]
      rw [List.drop_drop]
      have h3 : bs - 1 + bs * k = bs * k + (bs - 1) := by omega
      rw [h3]
      rw [Nat.mul_succ]
      have h2 : bs * k + bs = (bs * k + (bs - 1)) + 1 := by omega
      rw [h2, List.drop_succ_cons]

/-- A successful fallback pass yields exactly one vector per text of the
batch, with no hypothesis on the single encoder. -/
theorem fallbackLoop_length {V : Type} (singleEnc : String → EncOutcome V) (task : String)
    (i : Nat) (b : List PyText) (j : Nat) (vs : List V)
    (h : fallbackLoop singleEnc task i j b = .ok vs) : vs.length = b.length := by
  induction b generalizing j vs with
  | nil =>
    simp only [fallbackLoop] at h
    cases h
    rfl
  | cons t ts ih =>
    simp only [fallbackLoop] at h
    cases hsE : singleEnc (prefixWith task (getStr t)) with
    | ok v =>
      rw [hsE] at h
      cases hrest : fallbackLoop singleEnc task i (j + 1) ts with
      | ok rest =>
        rw [hrest] at h
        cases h
        simp only [List.length_cons]
        rw [ih (j + 1) rest hrest]
      | error e => rw [hrest] at h; cases h
    | oom => rw [hsE] at h; cases h
    | err => rw [hsE] at h; cases h

/-- A successful fallback pass, when every successful single encode is the
output of the per-text encoder, yields the batch image of that
encoder. -/
theorem fallbackLoop_ok_map {V : Type} (singleEnc : String → EncOutcome V)
    (enc : String → V) (task : String) (i : Nat) (b : List PyText) (j : Nat) (vs : List V)
    (hS : ∀ t v, singleEnc t = .ok v → v = enc t)
    (h : fallbackLoop singleEnc task i j b = .ok vs) :
    vs = b.map (fun t => enc (prefixWith task (getStr t))) := by
  induction b generalizing j vs with
  | nil =>
    simp only [fallbackLoop] at h
    cases h
    rfl
  | cons t ts ih =>
    simp only [fallbackLoop] at h
    cases hsE : singleEnc (prefixWith task (getStr t)) with
    | ok v =>
      rw [hsE] at h
      cases hrest : fallbackLoop singleEnc task i (j + 1) ts with
      | ok rest =>
        rw [hrest] at h
        cases h
        rw [List.map_cons]
        rw [ih (j + 1) rest hrest, hS _ v hsE]
      | error e => rw [hrest] at h; cases h
    | oom => rw [hsE] at h; cases h
    | err => rw [hsE] at h; cases h

/-- If every single encode of the batch succeeds with the per-text
encoder output, the fallback pass succeeds with the batch image of that
encoder (no abort: the batch is re-processed text by text). -/
theorem fallbackLoop_all_ok {V : Type} (singleEnc : String → EncOutcome V)
    (enc : String → V) (task : String) (i : Nat) (b : List PyText) (j : Nat)
    (hS : ∀ t ∈ b, singleEnc (prefixWith task (getStr t)) =
      .ok (enc (prefixWith task (getStr t)))) :
    fallbackLoop singleEnc task i j b =
      .ok (b.map (fun t => enc (prefixWith task (getStr t)))) := by
  induction b generalizing j with
  | nil => rfl
  | cons t ts ih =>
    have ht := hS t (List.mem_cons_self t ts)
    simp only [fallbackLoop, ht, List.map_cons]
    rw [ih (j + 1) (fun u hu => hS u (List.mem_cons_of_mem _ hu))]

/-- If the single encode of the element at within-batch index `j` fails
(in any way) and all earlier elements succeed, the fallback pass aborts
with a 500 naming the absolute position `i + (c + j)` where `c` is the
enumeration start. -/
theorem fallbackLoop_first_fail {V : Type} (singleEnc : String → EncOutcome V)
    (task : String) (i : Nat) (b : List PyText) (c j : Nat) (hj : j < b.length)
    (hfail : ∀ v : V, singleEnc (prefixWith task (getStr (b.get ⟨j, hj⟩))) ≠ .ok v)
    (hok : ∀ j2 (h2 : j2 < j), ∃ v : V,
      singleEnc (prefixWith task (getStr (b.get ⟨j2, Nat.lt_trans h2 hj⟩))) = .ok v) :
    fallbackLoop singleEnc task i c b =
      .error ⟨500, "Failed to process text at position " ++ toString (i + (c + j))⟩ := by
  induction b generalizing c j with
  | nil => exact absurd hj (Nat.not_lt_zero j)
  | cons t ts ih =>
    cases j with
    | zero =>
      simp only [List.get] at hfail
      simp only [fallbackLoop]
      cases hsE : singleEnc (prefixWith task (getStr t)) with
      | ok v => exact absurd hsE (hfail v)
      | oom => simp
      | err => simp
    | succ j =>
      obtain ⟨v, hv⟩ := hok 0 (Nat.succ_pos j)
      simp only [List.get] at hv hfail
      simp only [fallbackLoop, hv]
      rw [ih (c + 1) j (Nat.lt_of_succ_lt_succ hj) hfail
        (fun j2 h2 => hok (j2 + 1) (Nat.succ_lt_succ h2))]
      have harith : i + (c + 1 + j) = i + (c + (j + 1)) := by omega
      rw [harith]

/-- A successful batch, with the encoder contracts, is the batch image of
the per-text encoder, whether or not the fallback was taken. -/
theorem processBatch_ok_map {V : Type} (batchEnc : List String → EncOutcome (List V))
    (singleEnc : String → EncOutcome V) (enc : String → V) (task : String) (i : Nat)
    (b : List PyText) (vs : List V)
    (hB : ∀ ts ws, batchEnc ts = .ok ws → ws = ts.map enc)
    (hS : ∀ t v, singleEnc t = .ok v → v = enc t)
    (h : processBatch batchEnc singleEnc task i b = .ok vs) :
    vs = b.map (fun t => enc (prefixWith task (getStr t))) := by
  simp only [processBatch] at h
  cases hbe : batchEnc (b.map (fun t => prefixWith task (getStr t))) with
  | ok ws =>
    rw [hbe] at h
    cases h
    rw [hB _ _ hbe, List.map_map]
    rfl
  | oom =>
    rw [hbe] at h
    exact fallbackLoop_ok_map singleEnc enc task i b 0 vs hS h
  | err => rw [hbe] at h; cases h

/-- A successful batch yields one vector per text whenever successful
whole-batch encodes do (the fallback path needs no such hypothesis). -/
theorem processBatch_ok_length {V : Type} (batchEnc : List String → EncOutcome (List V))
    (singleEnc : String → EncOutcome V) (task : String) (i : Nat)
    (b : List PyText) (vs : List V)
    (hBlen : ∀ ts ws, batchEnc ts = .ok ws → ws.length = ts.length)
    (h : processBatch batchEnc singleEnc task i b = .ok vs) : vs.length = b.length := by
  simp only [processBatch] at h
  cases hbe : batchEnc (b.map (fun t => prefixWith task (getStr t))) with
  | ok ws =>
    rw [hbe] at h
    cases h
    rw [hBlen _ _ hbe, List.length_map]
  | oom =>
    rw [hbe] at h
    exact fallbackLoop_length singleEnc task i b 0 vs h
  | err => rw [hbe] at h; cases h

/-- Inversion for the batch loop: a successful run over a chunk list,
with the encoder contracts, flattens to the per-text-encoder image of the
flattened chunks. -/
theorem processBatches_ok_flatten_map {V : Type} (bs : Nat)
    (batchEnc : List String → EncOutcome (List V)) (singleEnc : String → EncOutcome V)
    (enc : String → V) (task : String) (i : Nat) (chunks : List (List PyText))
    (vss : List (List V))
    (hB : ∀ ts ws, batchEnc ts = .ok ws → ws = ts.map enc)
    (hS : ∀ t v, singleEnc t = .ok v → v = enc t)
    (h : processBatches bs batchEnc singleEnc task i chunks = .ok vss) :
    vss.flatten = chunks.flatten.map (fun t => enc (prefixWith task (getStr t))) := by
  induction chunks generalizing i vss with
  | nil =>
    simp only [processBatches] at h
    cases h
    rfl
  | cons b rest ih =>
    simp only [processBatches] at h
    cases hpb : processBatch batchEnc singleEnc task i b with
    | error e => rw [hpb] at h; cases h
    | ok vs =>
      rw [hpb] at h
      cases hpr : processBatches bs batchEnc singleEnc task (i + bs) rest with
      | error e => rw [hpr] at h; cases h
      | ok vss2 =>
        rw [hpr] at h
        cases h
        rw [List.flatten_cons, List.flatten_cons, List.map_append]
        rw [processBatch_ok_map batchEnc singleEnc enc task i b vs hB hS hpb]
        rw [ih (i + bs) vss2 hpr]

/-- Counting version of the inversion: a successful run yields one vector
per input text, given only that successful whole-batch encodes do. -/
theorem processBatches_ok_length {V : Type} (bs : Nat)
    (batchEnc : List String → EncOutcome (List V)) (singleEnc : String → EncOutcome V)
    (task : String) (i : Nat) (chunks : List (List PyText)) (vss : List (List V))
    (hBlen : ∀ ts ws, batchEnc ts = .ok ws → ws.length = ts.length)
    (h : processBatches bs batchEnc singleEnc task i chunks = .ok vss) :
    vss.flatten.length = chunks.flatten.length := by
  induction chunks generalizing i vss with
  | nil =>
    simp only [processBatches] at h
    cases h
    rfl
  | cons b rest ih =>
    simp only [processBatches] at h
    cases hpb : processBatch batchEnc singleEnc task i b with
    | error e => rw [hpb] at h; cases h
    | ok vs =>
      rw [hpb] at h
      cases hpr : processBatches bs batchEnc singleEnc task (i + bs) rest with
      | error e => rw [hpr] at h; cases h
      | ok vss2 =>
        rw [hpr] at h
        cases h
        simp only [List.flatten_cons, List.length_append]
        rw [processBatch_ok_length batchEnc singleEnc task i b vs hBlen hpb]
        rw [ih (i + bs) vss2 hpr]

/-- With a whole-batch encoder that always succeeds with the per-text
image, the batch loop succeeds on every chunk (the non-fallback path). -/
theorem processBatches_batchOk {V : Type} (bs : Nat) (enc : String → V)
    (singleEnc : String → EncOutcome V) (task : String) (i : Nat)
    (chunks : List (List PyText)) :
    processBatches bs (fun ts => .ok (ts.map enc)) singleEnc task i chunks =
      .ok (chunks.map (List.map (fun t => enc (prefixWith task (getStr t))))) := by
  induction chunks generalizing i with
  | nil => rfl
  | cons b rest ih =>
    simp only [processBatches, processBatch, ih (i + bs), List.map_map]
    rfl

/-- With a whole-batch encoder that always signals out-of-memory and a
single encoder that always succeeds with the per-text image, every chunk
goes through the fallback and the batch loop still succeeds with the same
result as the non-fallback path. -/
theorem processBatches_oomOk {V : Type} (bs : Nat) (enc : String → V) (task : String)
    (i : Nat) (chunks : List (List PyText)) :
    processBatches bs (fun _ => .oom) (fun t => .ok (enc t)) task i chunks =
      .ok (chunks.map (List.map (fun t => enc (prefixWith task (getStr t))))) := by
  induction chunks generalizing i with
  | nil => rfl
  | cons b rest ih =>
    have hfb := fallbackLoop_all_ok (fun t => .ok (enc t)) enc task i b 0
      (fun t _ => rfl)
    simp only [processBatches, processBatch, hfb, ih (i + bs)]
    rfl

/-- The batch loop over an appended chunk list runs the first part, then
the second part with the offset advanced by `bs` per chunk of the first
part, mirroring `range(0, len, bs)`. -/
theorem processBatches_append {V : Type} (bs : Nat)
    (batchEnc : List String → EncOutcome (List V)) (singleEnc : String → EncOutcome V)
    (task : String) (l1 l2 : List (List PyText)) (i : Nat) :
    processBatches bs batchEnc singleEnc task i (l1 ++ l2) =
      match processBatches bs batchEnc singleEnc task i l1 with
      | .error e => .error e
      | .ok vss1 =>
        match processBatches bs batchEnc singleEnc task (i + bs * l1.length) l2 with
        | .error e => .error e
        | .ok vss2 => .ok (vss1 ++ vss2) := by
  induction l1 generalizing i with
  | nil =>
    simp only [List.nil_append, processBatches, List.length_nil, Nat.mul_zero, Nat.add_zero]
    cases processBatches bs batchEnc singleEnc task i l2 <;> rfl
  | cons b l1 ih =>
    simp only [List.cons_append, processBatches]
    cases hpb : processBatch batchEnc singleEnc task i b with
    | error e => rfl
    | ok vs =>
      simp only [List.append_eq] at ih ⊢
      rw [ih (i + bs)]
      have harith : i + bs + bs * l1.length = i + bs * (b :: l1).length := by
        simp only [List.length_cons, Nat.mul_succ]
        omega
      rw [harith]
      cases hp1 : processBatches bs batchEnc singleEnc task (i + bs) l1 with
      | error e => rfl
      | ok vss1 =>
        cases hp2 : processBatches bs batchEnc singleEnc task
            (i + bs * (b :: l1).length) l2 with
        | error e => rfl
        | ok vss2 => simp

/-- The non-fallback run of the endpoint: when the whole-batch encoder
always succeeds with the per-text image, a valid request succeeds and the
response lists the per-text-encoder outputs in input order. -/
theorem embed_batchOk {V : Type} (cfg : Config) (enc : String → V)
    (singleEnc : String → EncOutcome V) (req : EmbedRequest)
    (hbs : cfg.BATCH_SIZE ≠ 0) (hval : validate_texts cfg req.texts = none) :
    embed cfg (fun ts => .ok (ts.map enc)) singleEnc EncoderState.ready req =
      .ok ⟨req.texts.map (fun t => enc (prefixWith req.task (getStr t))),
        req.texts.length, cfg.MODEL_NAME⟩ := by
  simp only [embed, hval, if_neg hbs]
  rw [processBatches_batchOk]
  simp [← List.map_flatten, chunkList_flatten]

/-- The all-fallback run of the endpoint: when every whole-batch encode
signals out-of-memory and every single encode succeeds with the per-text
image, a valid request still succeeds with the same response as the
non-fallback run. -/
theorem embed_oomOk {V : Type} (cfg : Config) (enc : String → V) (req : EmbedRequest)
    (hbs : cfg.BATCH_SIZE ≠ 0) (hval : validate_texts cfg req.texts = none) :
    embed cfg (fun _ => .oom) (fun t => .ok (enc t)) EncoderState.ready req =
      .ok ⟨req.texts.map (fun t => enc (prefixWith req.task (getStr t))),
        req.texts.length, cfg.MODEL_NAME⟩ := by
  simp only [embed, hval, if_neg hbs]
  rw [processBatches_oomOk]
  simp [← List.map_flatten, chunkList_flatten]

/-- Inversion of a successful `/embed` run under the encoder contracts:
the response carries the per-text encoder image of the input texts, and
its count field equals the length of what it carries. -/
theorem embed_ok_map_inv {V : Type} (cfg : Config)
    (batchEnc : List String → EncOutcome (List V)) (singleEnc : String → EncOutcome V)
    (enc : String → V) (req : EmbedRequest) (resp : EmbedResponse V)
    (hB : ∀ ts ws, batchEnc ts = .ok ws → ws = ts.map enc)
    (hS : ∀ t v, singleEnc t = .ok v → v = enc t)
    (hok : embed cfg batchEnc singleEnc EncoderState.ready req = .ok resp) :
    resp.embeddings = req.texts.map (fun t => enc (prefixWith req.task (getStr t)))
    ∧ resp.count = resp.embeddings.length := by
  simp only [embed] at hok
  cases hval : validate_texts cfg req.texts with
  | some e => rw [hval] at hok; cases hok
  | none =>
    rw [hval] at hok
    by_cases hbs : cfg.BATCH_SIZE = 0
    · rw [if_pos hbs] at hok; cases hok
    · rw [if_neg hbs] at hok
      cases hpb : processBatches cfg.BATCH_SIZE batchEnc singleEnc req.task 0
          (chunkList cfg.BATCH_SIZE req.texts) with
      | error e => rw [hpb] at hok; cases hok
      | ok vss =>
        rw [hpb] at hok
        cases hok
        have hmap := processBatches_ok_flatten_map cfg.BATCH_SIZE batchEnc singleEnc enc
          req.task 0 _ vss hB hS hpb
        rw [chunkList_flatten] at hmap
        exact ⟨hmap, rfl⟩

/-! ## Claim C1 -/

/-- Claim C1: whenever the encoder oracles respect the encoder interface
(a successful whole-batch invocation returns the per-text outputs in
order, a successful single invocation returns the per-text output), every
successful response of `/embed` carries exactly one embedding per input
text, the count equals that length, and the embedding at position `i` is
the encoder output for the text at position `i` — however the texts were
chunked and whichever batches fell back to per-item processing. -/
theorem C1_one_embedding_per_text_in_order {V : Type} (cfg : Config)
    (batchEnc : List String → EncOutcome (List V)) (singleEnc : String → EncOutcome V)
    (enc : String → V) (req : EmbedRequest) (resp : EmbedResponse V)
    (hB : ∀ ts ws, batchEnc ts = .ok ws → ws = ts.map enc)
    (hS : ∀ t v, singleEnc t = .ok v → v = enc t)
    (hok : embed cfg batchEnc singleEnc EncoderState.ready req = .ok resp) :
    resp.embeddings = req.texts.map (fun t => enc (prefixWith req.task (getStr t)))
    ∧ resp.embeddings.length = req.texts.length
    ∧ resp.count = req.texts.length := by
  have h := embed_ok_map_inv cfg batchEnc singleEnc enc req resp hB hS hok
  refine ⟨h.1, by rw [h.1, List.length_map], ?_⟩
  rw [h.2, h.1, List.length_map]

/-- Witness for C1 at a concrete request of three texts and batch size 2,
with the encoder measuring the prefixed string length. -/
theorem C1_one_embedding_per_text_in_order_witness :
    embed (V := List ℚ) ⟨2, 1000, "m"⟩
        (fun ts => .ok (ts.map (fun s => [(s.length : ℚ)])))
        (fun t => .ok [(t.length : ℚ)]) EncoderState.ready
        ⟨[.str "ab", .str "c", .str "d"], "q"⟩ =
      .ok ⟨[[5], [4], [4]], 3, "m"⟩
    ∧ ([[5], [4], [4]] : List (List ℚ)).length =
        ([PyText.str "ab", PyText.str "c", PyText.str "d"]).length := by
  have hok := embed_batchOk (V := List ℚ) ⟨2, 1000, "m"⟩ (fun s => [(s.length : ℚ)])
    (fun t => .ok [(t.length : ℚ)]) ⟨[.str "ab", .str "c", .str "d"], "q"⟩
    (by decide) (by decide)
  have hok2 : embed (V := List ℚ) ⟨2, 1000, "m"⟩
      (fun ts => .ok (ts.map (fun s => [(s.length : ℚ)])))
      (fun t => .ok [(t.length : ℚ)]) EncoderState.ready
      ⟨[.str "ab", .str "c", .str "d"], "q"⟩ = .ok ⟨[[5], [4], [4]], 3, "m"⟩ :=
    hok.trans (congrArg Except.ok (by decide))
  have h := C1_one_embedding_per_text_in_order ⟨2, 1000, "m"⟩ _ _
    (fun s => [(s.length : ℚ)]) ⟨[.str "ab", .str "c", .str "d"], "q"⟩ _
    (fun ts ws hw => by cases hw; rfl) (fun t v hv => by cases hv; rfl) hok2
  exact ⟨hok2, h.2.1⟩

/-! ## Claim C3 -/

/-- Claim C3: on the non-fallback path (every whole-batch encode
succeeds), the batched pipeline is result-equivalent to processing all
texts as one giant batch, for every `BATCH_SIZE`, and the embedding at
each position is the encoder output of that position's text with the
task prefix.  The right-hand side `oneGiantBatch` does not mention
`BATCH_SIZE` at all. -/
theorem C3_batching_equals_one_giant_batch {V : Type} (cfg : Config) (enc : String → V)
    (singleEnc : String → EncOutcome V) (req : EmbedRequest)
    (hbs : cfg.BATCH_SIZE ≠ 0) (hval : validate_texts cfg req.texts = none) :
    embed cfg (fun ts => .ok (ts.map enc)) singleEnc EncoderState.ready req =
      .ok ⟨oneGiantBatch enc req.task req.texts, req.texts.length, cfg.MODEL_NAME⟩
    ∧ ∀ i (hi : i < req.texts.length),
        (hi2 : i < (oneGiantBatch enc req.task req.texts).length) →
        (oneGiantBatch enc req.task req.texts).get ⟨i, hi2⟩ =
          enc (prefixWith req.task (getStr (req.texts.get ⟨i, hi⟩))) := by
  constructor
  · rw [embed_batchOk cfg enc singleEnc req hbs hval]
    simp [oneGiantBatch, List.map_map]
  · intro i hi hi2
    simp [oneGiantBatch, List.get_eq_getElem, List.getElem_map]

/-- Witness for C3 at the spec's concrete scenario: two code snippets
with `BATCH_SIZE = 1` produce two singleton-batch encodes returned in
input order, equal to the one-giant-batch result. -/
theorem C3_batching_equals_one_giant_batch_witness :
    embed (V := List ℚ) ⟨1, 1000, "m"⟩
        (fun ts => .ok (ts.map (fun s => [(s.length : ℚ)])))
        (fun t => .ok [(t.length : ℚ)]) EncoderState.ready
        ⟨[.str "def f(): pass", .str "class A: pass"], "search_document"⟩ =
      .ok ⟨oneGiantBatch (fun s => [(s.length : ℚ)]) "search_document"
            [.str "def f(): pass", .str "class A: pass"], 2, "m"⟩
    ∧ oneGiantBatch (fun s => [(s.length : ℚ)]) "search_document"
        [.str "def f(): pass", .str "class A: pass"] = [[30], [30]] := by
  have h := C3_batching_equals_one_giant_batch (V := List ℚ) ⟨1, 1000, "m"⟩
    (fun s => [(s.length : ℚ)]) (fun t => .ok [(t.length : ℚ)])
    ⟨[.str "def f(): pass", .str "class A: pass"], "search_document"⟩
    (by decide) (by decide)
  exact ⟨h.1, by decide⟩

/-! ## Claim C10 -/

/-- Claim C10 (implicit): although validation accepts an element exactly
when its whitespace-trimmed form is non-empty, the string the encoder
receives is the original untrimmed text with the task prefix
`task ++ ": "` prepended, on the batch path and on the all-fallback
path alike. -/
theorem C10_untrimmed_text_is_encoded {V : Type} (cfg : Config) (enc : String → V)
    (req : EmbedRequest) (hbs : cfg.BATCH_SIZE ≠ 0)
    (hval : validate_texts cfg req.texts = none) :
    (embed cfg (fun ts => .ok (ts.map enc)) (fun t => .ok (enc t)) EncoderState.ready req =
      .ok ⟨req.texts.map (fun t => enc (req.task ++ ": " ++ getStr t)),
        req.texts.length, cfg.MODEL_NAME⟩)
    ∧ (embed cfg (fun _ => .oom) (fun t => .ok (enc t)) EncoderState.ready req =
      .ok ⟨req.texts.map (fun t => enc (req.task ++ ": " ++ getStr t)),
        req.texts.length, cfg.MODEL_NAME⟩) :=
  ⟨embed_batchOk cfg enc (fun t => .ok (enc t)) req hbs hval,
    embed_oomOk cfg enc req hbs hval⟩

/-- Witness for C10: a text with leading and trailing whitespace passes
validation (its trimmed form is non-empty) yet the encoder receives the
untrimmed string — the length-measuring encoder sees all 21 characters of
"search_document:   x " — identically on both paths. -/
theorem C10_untrimmed_text_is_encoded_witness :
    embed (V := List ℚ) ⟨4, 1000, "m"⟩
        (fun ts => .ok (ts.map (fun s => [(s.length : ℚ)])))
        (fun t => .ok [(t.length : ℚ)]) EncoderState.ready
        ⟨[.str "  x "], "search_document"⟩ = .ok ⟨[[21]], 1, "m"⟩
    ∧ embed (V := List ℚ) ⟨4, 1000, "m"⟩ (fun _ => .oom)
        (fun t => .ok [(t.length : ℚ)]) EncoderState.ready
        ⟨[.str "  x "], "search_document"⟩ = .ok ⟨[[21]], 1, "m"⟩
    ∧ pyStrip "  x " ≠ "  x " := by
  have h := C10_untrimmed_text_is_encoded (V := List ℚ) ⟨4, 1000, "m"⟩
    (fun s => [(s.length : ℚ)]) ⟨[.str "  x "], "search_document"⟩
    (by decide) (by decide)
  exact ⟨h.1.trans (congrArg Except.ok (by decide)),
    h.2.trans (congrArg Except.ok (by decide)), by decide⟩

/-! ## Claim C4 -/

/-- Counterexample to C4 as stated: with a whole-batch encode that
returns a wrong number of vectors (zero for a one-text batch), the
request succeeds and returns the corrupted output with `count = 0`
instead of failing: the source (lines 235-248) performs no assertion
comparing the concatenated length with `len(texts)`. -/
theorem C4_counterexample :
    embed (V := List ℚ) ⟨4, 1000, "m"⟩ (fun _ => .ok []) (fun _ => .err)
        EncoderState.ready ⟨[.str "a"], "t"⟩ = .ok ⟨[], 0, "m"⟩
    ∧ (0 : Nat) ≠ ([PyText.str "a"] : List PyText).length := by
  constructor
  · have hval : validate_texts ⟨4, 1000, "m"⟩ [PyText.str "a"] = none := by decide
    simp [embed, hval, chunkList, processBatches, processBatch]
  · decide

/-- Claim C4 (amended): the pipeline performs no length assertion after
concatenation; the response always reports `count` equal to the length of
the embeddings it carries, and whenever successful whole-batch encodes
return one vector per text (as the model's tensor semantics guarantee),
that length equals `len(texts)` on the normal and fallback paths alike. -/
theorem C4_count_equals_inputs_under_contract {V : Type} (cfg : Config)
    (batchEnc : List String → EncOutcome (List V)) (singleEnc : String → EncOutcome V)
    (req : EmbedRequest) (resp : EmbedResponse V)
    (hBlen : ∀ ts ws, batchEnc ts = .ok ws → ws.length = ts.length)
    (hok : embed cfg batchEnc singleEnc EncoderState.ready req = .ok resp) :
    resp.count = resp.embeddings.length
    ∧ resp.embeddings.length = req.texts.length := by
  simp only [embed] at hok
  cases hval : validate_texts cfg req.texts with
  | some e => rw [hval] at hok; cases hok
  | none =>
    rw [hval] at hok
    by_cases hbs : cfg.BATCH_SIZE = 0
    · rw [if_pos hbs] at hok; cases hok
    · rw [if_neg hbs] at hok
      cases hpb : processBatches cfg.BATCH_SIZE batchEnc singleEnc req.task 0
          (chunkList cfg.BATCH_SIZE req.texts) with
      | error e => rw [hpb] at hok; cases hok
      | ok vss =>
        rw [hpb] at hok
        cases hok
        have hlen := processBatches_ok_length cfg.BATCH_SIZE batchEnc singleEnc
          req.task 0 _ vss hBlen hpb
        rw [chunkList_flatten] at hlen
        exact ⟨rfl, hlen⟩

/-- Witness for C4 (amended) at a concrete two-text request with batch
size 3. -/
theorem C4_count_equals_inputs_under_contract_witness :
    embed (V := List ℚ) ⟨3, 1000, "m"⟩
        (fun ts => .ok (ts.map (fun s => [(s.length : ℚ)])))
        (fun t => .ok [(t.length : ℚ)]) EncoderState.ready
        ⟨[.str "x", .str "yz"], "t"⟩ = .ok ⟨[[4], [5]], 2, "m"⟩
    ∧ (2 : Nat) = ([[4], [5]] : List (List ℚ)).length := by
  have hok := embed_batchOk (V := List ℚ) ⟨3, 1000, "m"⟩ (fun s => [(s.length : ℚ)])
    (fun t => .ok [(t.length : ℚ)]) ⟨[.str "x", .str "yz"], "t"⟩
    (by decide) (by decide)
  have hok2 : embed (V := List ℚ) ⟨3, 1000, "m"⟩
      (fun ts => .ok (ts.map (fun s => [(s.length : ℚ)])))
      (fun t => .ok [(t.length : ℚ)]) EncoderState.ready
      ⟨[.str "x", .str "yz"], "t"⟩ = .ok ⟨[[4], [5]], 2, "m"⟩ :=
    hok.trans (congrArg Except.ok (by decide))
  have h := C4_count_equals_inputs_under_contract ⟨3, 1000, "m"⟩ _ _
    ⟨[.str "x", .str "yz"], "t"⟩ _ (fun ts ws hw => by cases hw; simp) hok2
  exact ⟨hok2, h.1⟩

/-! ## Claim C2 -/

/-- Claim C2: (i) a whole-batch out-of-memory signal does not abort the
request: the same batch is re-processed one text at a time through the
same prefix-and-encode steps, succeeding when every single encode does;
(ii) any other whole-batch error aborts with the generic 500 and no
fallback; (iii) if, during the fallback of the batch at chunk index `k`,
the single encode of within-batch element `j` fails in any way while all
earlier elements succeed, the entire request aborts with a 500 naming the
absolute input index `BATCH_SIZE * k + j` — which indeed addresses the
failing text in the original list, so nothing is dropped and no
placeholder is substituted. -/
theorem C2_oom_fallback_semantics {V : Type} :
    (∀ (batchEnc : List String → EncOutcome (List V)) (singleEnc : String → EncOutcome V)
      (enc : String → V) (task : String) (i : Nat) (b : List PyText),
      batchEnc (b.map (fun t => prefixWith task (getStr t))) = .oom →
      (∀ t ∈ b, singleEnc (prefixWith task (getStr t)) =
        .ok (enc (prefixWith task (getStr t)))) →
      processBatch batchEnc singleEnc task i b =
        .ok (b.map (fun t => enc (prefixWith task (getStr t)))))
    ∧ (∀ (batchEnc : List String → EncOutcome (List V)) (singleEnc : String → EncOutcome V)
      (task : String) (i : Nat) (b : List PyText),
      batchEnc (b.map (fun t => prefixWith task (getStr t))) = .err →
      processBatch batchEnc singleEnc task i b =
        .error ⟨500, "Internal server error during embedding generation"⟩)
    ∧ (∀ (cfg : Config) (batchEnc : List String → EncOutcome (List V))
      (singleEnc : String → EncOutcome V) (req : EmbedRequest)
      (k j : Nat) (bk : List PyText) (tj : PyText) (prevs : List (List V)),
      validate_texts cfg req.texts = none →
      cfg.BATCH_SIZE ≠ 0 →
      (chunkList cfg.BATCH_SIZE req.texts)[k]? = some bk →
      processBatches cfg.BATCH_SIZE batchEnc singleEnc req.task 0
        ((chunkList cfg.BATCH_SIZE req.texts).take k) = .ok prevs →
      batchEnc (bk.map (fun t => prefixWith req.task (getStr t))) = .oom →
      bk[j]? = some tj →
      (∀ v : V, singleEnc (prefixWith req.task (getStr tj)) ≠ .ok v) →
      (∀ j2 (_h2 : j2 < j) (hj2 : j2 < bk.length),
        ∃ v : V, singleEnc (prefixWith req.task (getStr (bk.get ⟨j2, hj2⟩))) = .ok v) →
      embed cfg batchEnc singleEnc EncoderState.ready req =
        .error ⟨500, "Failed to process text at position " ++
          toString (cfg.BATCH_SIZE * k + j)⟩
      ∧ req.texts[cfg.BATCH_SIZE * k + j]? = some tj) := by
  refine ⟨?_, ?_, ?_⟩
  · intro batchEnc singleEnc enc task i b hoom hall
    simp only [processBatch, hoom]
    exact fallbackLoop_all_ok singleEnc enc task i b 0 hall
  · intro batchEnc singleEnc task i b herr
    simp only [processBatch, herr]
  · intro cfg batchEnc singleEnc req k j bk tj prevs hval hbs hchunk hprev hoom hj
      hfail hbefore
    obtain ⟨hk, hbk⟩ := List.getElem?_eq_some_iff.mp hchunk
    obtain ⟨hjlt, htj⟩ := List.getElem?_eq_some_iff.mp hj
    have hbs1 : 1 ≤ cfg.BATCH_SIZE := by omega
    have hbk2 : bk = (req.texts.drop (cfg.BATCH_SIZE * k)).take cfg.BATCH_SIZE := by
      rw [← hbk]
      exact chunkList_getElem cfg.BATCH_SIZE hbs1 req.texts k hk
    have hjbs : j < cfg.BATCH_SIZE := by
      have hlen : bk.length ≤ cfg.BATCH_SIZE := by
        rw [hbk2, List.length_take]
        omega
      omega
    constructor
    · simp only [embed, hval, if_neg hbs]
      have hsplit : chunkList cfg.BATCH_SIZE req.texts =
          (chunkList cfg.BATCH_SIZE req.texts).take k ++
            (chunkList cfg.BATCH_SIZE req.texts).drop k :=
        (List.take_append_drop k _).symm
      rw [hsplit, processBatches_append, hprev]
      have hlt : ((chunkList cfg.BATCH_SIZE req.texts).take k).length = k := by
        rw [List.length_take]
        omega
      rw [hlt]
      have hdrop := List.drop_eq_getElem_cons hk
      rw [hdrop, hbk]
      simp only [processBatches, processBatch, hoom]
      have hfb := fallbackLoop_first_fail singleEnc req.task (0 + cfg.BATCH_SIZE * k)
        bk 0 j hjlt
        (fun v => by
          rw [show bk.get ⟨j, hjlt⟩ = tj from htj]
          exact hfail v)
        (fun j2 h2 => hbefore j2 h2 (Nat.lt_trans h2 hjlt))
      rw [hfb]
      have harith : 0 + cfg.BATCH_SIZE * k + (0 + j) = cfg.BATCH_SIZE * k + j := by
        omega
      rw [harith]
    · calc req.texts[cfg.BATCH_SIZE * k + j]?
          = (req.texts.drop (cfg.BATCH_SIZE * k))[j]? :=
            (List.getElem?_drop req.texts (cfg.BATCH_SIZE * k) j).symm
        _ = ((req.texts.drop (cfg.BATCH_SIZE * k)).take cfg.BATCH_SIZE)[j]? := by
            rw [List.getElem?_take, if_pos hjbs]
        _ = bk[j]? := by rw [← hbk2]
        _ = some tj := hj

/-- Witness for C2: with batch size 2 and four texts, the first batch
succeeds, the second signals out-of-memory and its first single encode
fails, so the request aborts naming absolute position 2; additionally a
concrete all-singles-succeed fallback batch and a concrete non-oom batch
error illustrate parts (i) and (ii). -/
theorem C2_oom_fallback_semantics_witness :
    embed (V := List ℚ) ⟨2, 1000, "m"⟩
        (fun ts => if ts = ["t: a", "t: b"] then .ok [[1], [2]] else .oom)
        (fun _ => .err) EncoderState.ready
        ⟨[.str "a", .str "b", .str "c", .str "d"], "t"⟩ =
      .error ⟨500, "Failed to process text at position 2"⟩
    ∧ ([PyText.str "a", PyText.str "b", PyText.str "c", PyText.str "d"])[2]? =
        some (PyText.str "c")
    ∧ processBatch (V := List ℚ) (fun _ => .oom) (fun s => .ok [(s.length : ℚ)])
        "t" 0 [.str "e"] = .ok [[4]]
    ∧ processBatch (V := List ℚ) (fun _ => .err) (fun s => .ok [(s.length : ℚ)])
        "t" 0 [.str "e"] =
      .error ⟨500, "Internal server error during embedding generation"⟩ := by
  have hchunks : chunkList 2 [PyText.str "a", PyText.str "b", PyText.str "c",
      PyText.str "d"] = [[PyText.str "a", PyText.str "b"],
        [PyText.str "c", PyText.str "d"]] := by
    simp [chunkList]
  have h3 := (C2_oom_fallback_semantics (V := List ℚ)).2.2 ⟨2, 1000, "m"⟩
    (fun ts => if ts = ["t: a", "t: b"] then .ok [[1], [2]] else .oom)
    (fun _ => .err) ⟨[.str "a", .str "b", .str "c", .str "d"], "t"⟩
    1 0 [.str "c", .str "d"] (.str "c") [[[1], [2]]]
    (by decide) (by decide)
    (by rw [hchunks]; rfl)
    (by rw [hchunks]; rfl)
    rfl rfl
    (fun v h => EncOutcome.noConfusion h)
    (fun j2 h2 => absurd h2 (Nat.not_lt_zero j2))
  have h1 := (C2_oom_fallback_semantics (V := List ℚ)).1
    (fun _ => .oom) (fun s => .ok [(s.length : ℚ)]) (fun s => [(s.length : ℚ)])
    "t" 0 [.str "e"] rfl (fun t _ => rfl)
  have h2 := (C2_oom_fallback_semantics (V := List ℚ)).2.1
    (fun _ => .err) (fun s => .ok [(s.length : ℚ)]) "t" 0 [.str "e"] rfl
  exact ⟨h3.1.trans (congrArg Except.error (by decide)), h3.2,
    h1.trans (congrArg Except.ok (by decide)), h2⟩

/-! ## Claim C5 -/

/-- Claim C5: when the encoder oracles are built from the model pipeline
(per text: hidden states and attention mask, mean-pooled by
`mean_pooling`), every vector of a successful response is a mean-pooled
vector of some input text (batch or fallback path alike), and the vector
returned after `F.normalize(..., p=2)` — which divides by
`max(‖v‖₂, 1e-12)` — has squared L2 norm exactly 1 whenever the pooled
vector is non-degenerate (`‖v‖₂ > 1e-12`); moreover both the
mean-pooling denominator (clamped at `1e-9`) and the normalization
denominator (floored at `1e-12`) are positive for every input, including
all-zero masks and all-zero pooled vectors, so no division by zero can
occur. -/
theorem C5_response_vectors_unit_norm (d : Nat) (cfg : Config)
    (hidden : String → List (DVec d)) (attn : String → List ℚ)
    (batchEnc : List String → EncOutcome (List (DVec d)))
    (singleEnc : String → EncOutcome (DVec d))
    (req : EmbedRequest) (resp : EmbedResponse (DVec d))
    (hB : ∀ ts ws, batchEnc ts = .ok ws →
      ws = ts.map (fun s => mean_pooling (hidden s) (attn s)))
    (hS : ∀ t v, singleEnc t = .ok v → v = mean_pooling (hidden t) (attn t))
    (hok : embed cfg batchEnc singleEnc EncoderState.ready req = .ok resp) :
    (∀ w ∈ resp.embeddings, ∃ t ∈ req.texts,
      w = mean_pooling (hidden (prefixWith req.task (getStr t)))
        (attn (prefixWith req.task (getStr t))))
    ∧ (∀ w ∈ resp.embeddings,
      (1 : ℝ) / 10 ^ 12 < Real.sqrt ((normSq w : ℝ)) →
      ∑ idx : Fin d, ((w idx : ℝ) /
        max (Real.sqrt ((normSq w : ℝ))) ((1 : ℝ) / 10 ^ 12)) ^ 2 = 1)
    ∧ (∀ mask : List ℚ, (0 : ℚ) < max mask.sum (1 / 1000000000))
    ∧ (∀ v : DVec d, (0 : ℝ) < max (Real.sqrt ((normSq v : ℝ))) ((1 : ℝ) / 10 ^ 12)) := by
  have hmapinv := embed_ok_map_inv cfg batchEnc singleEnc
    (fun s => mean_pooling (hidden s) (attn s)) req resp hB hS hok
  refine ⟨?_, ?_, ?_, ?_⟩
  · intro w hw
    rw [hmapinv.1] at hw
    obtain ⟨t, ht, hwt⟩ := List.mem_map.mp hw
    exact ⟨t, ht, hwt.symm⟩
  · intro w _ hnd
    have hS0 : (0 : ℝ) ≤ ((normSq w : ℝ)) := by
      have hq : (0 : ℚ) ≤ normSq w :=
        Finset.sum_nonneg (fun idx _ => mul_self_nonneg (w idx))
      exact_mod_cast hq
    have hmax : max (Real.sqrt ((normSq w : ℝ))) ((1 : ℝ) / 10 ^ 12) =
        Real.sqrt ((normSq w : ℝ)) := max_eq_left (le_of_lt hnd)
    rw [hmax]
    have hSpos : (0 : ℝ) < ((normSq w : ℝ)) := by
      have h0 : (0 : ℝ) < Real.sqrt ((normSq w : ℝ)) :=
        lt_trans (by norm_num) hnd
      exact Real.sqrt_pos.mp h0
    have hsq : Real.sqrt ((normSq w : ℝ)) ^ 2 = ((normSq w : ℝ)) :=
      Real.sq_sqrt hS0
    calc ∑ idx : Fin d, ((w idx : ℝ) / Real.sqrt ((normSq w : ℝ))) ^ 2
        = ∑ idx : Fin d, (w idx : ℝ) ^ 2 / ((normSq w : ℝ)) := by
          refine Finset.sum_congr rfl (fun idx _ => ?_)
          rw [div_pow, hsq]
      _ = (∑ idx : Fin d, (w idx : ℝ) ^ 2) / ((normSq w : ℝ)) := by
          rw [Finset.sum_div]
      _ = ((normSq w : ℝ)) / ((normSq w : ℝ)) := by
          congr 1
          rw [normSq]
          push_cast
          refine Finset.sum_congr rfl (fun idx _ => ?_)
          ring
      _ = 1 := div_self (ne_of_gt hSpos)
  · intro mask
    have h9 : (0 : ℚ) < 1 / 1000000000 := by norm_num
    exact lt_max_of_lt_right h9
  · intro v
    have h12 : (0 : ℝ) < 1 / 10 ^ 12 := by norm_num
    exact lt_max_of_lt_right h12

/-- Witness for C5 at a concrete one-token, two-dimensional model: the
pooled vector is (3, 4) with squared norm 25, the non-degeneracy bound
holds, and the normalized vector has squared norm 1. -/
theorem C5_response_vectors_unit_norm_witness :
    ((1 : ℝ) / 10 ^ 12 <
      Real.sqrt ((normSq (mean_pooling (d := 2) [![3, 4]] [1]) : ℝ)))
    ∧ (∑ idx : Fin 2, ((mean_pooling (d := 2) [![3, 4]] [1] idx : ℝ) /
        max (Real.sqrt ((normSq (mean_pooling (d := 2) [![3, 4]] [1]) : ℝ)))
          ((1 : ℝ) / 10 ^ 12)) ^ 2 = 1)
    ∧ normSq (mean_pooling (d := 2) [![3, 4]] [1]) = 25 := by
  have h25 : normSq (mean_pooling (d := 2) [![3, 4]] [(1 : ℚ)]) = 25 := by
    have hm : max (List.sum [(1 : ℚ)]) (1 / 1000000000) = 1 := by
      rw [List.sum_singleton]
      exact max_eq_left (by norm_num)
    simp [normSq, mean_pooling, vecSum, vecAdd, vecSmul, hm, Fin.sum_univ_two,
      Matrix.cons_val_zero, Matrix.cons_val_one, Matrix.head_cons]
    norm_num
  have hnd : (1 : ℝ) / 10 ^ 12 <
      Real.sqrt ((normSq (mean_pooling (d := 2) [![3, 4]] [(1 : ℚ)]) : ℝ)) := by
    rw [h25]
    have hc : (((25 : ℚ) : ℝ)) = 25 := by norm_num
    rw [hc]
    have h5 : Real.sqrt 25 = 5 := by
      rw [show (25 : ℝ) = 5 ^ 2 by norm_num]
      exact Real.sqrt_sq (by norm_num)
    rw [h5]
    norm_num
  have hok := embed_batchOk (V := DVec 2) ⟨4, 1000, "m"⟩
    (fun s => mean_pooling ((fun _ => [![3, 4]]) s) ((fun _ => [(1 : ℚ)]) s))
    (fun t => .ok (mean_pooling [![3, 4]] [(1 : ℚ)])) ⟨[.str "a"], "t"⟩
    (by decide) (by decide)
  have h := C5_response_vectors_unit_norm 2 ⟨4, 1000, "m"⟩
    (fun _ => [![3, 4]]) (fun _ => [(1 : ℚ)])
    (fun ts => .ok (ts.map (fun s =>
      mean_pooling ((fun _ => [![3, 4]]) s) ((fun _ => [(1 : ℚ)]) s))))
    (fun t => .ok (mean_pooling [![3, 4]] [(1 : ℚ)])) ⟨[.str "a"], "t"⟩ _
    (fun ts ws hw => by cases hw; rfl)
    (fun t v hv => by cases hv; rfl) hok
  have hmem : mean_pooling (d := 2) [![3, 4]] [(1 : ℚ)] ∈
      ([PyText.str "a"].map (fun t => mean_pooling (d := 2)
        ((fun _ => [![3, 4]]) (prefixWith "t" (getStr t)))
        ((fun _ => [(1 : ℚ)]) (prefixWith "t" (getStr t))))) :=
    List.mem_singleton.mpr rfl
  exact ⟨hnd, h.2.1 _ hmem hnd, h25⟩

end Embeddings
